/-
Verification of the EyeMech control interface (src/Interface.py).

Shallow embedding notes:
* Python floats are modelled as rationals (ℚ); the pixel geometry and the
  coordinate mapping are exact at this precision, so no rounding subtleties
  of binary floating point are relevant to the claims proved here
  (the only float-specific artifact, the signed zero printed as "-0.00",
  is noted where it matters and equals 0 numerically).
* Python integer floor division `//` is modelled by `Int.fdiv`.
* The serial port and the wall clock are external effects; they are
  modelled by explicit state (`Communication`, `DragState`) and by
  timestamps passed with each GUI event.
-/
import Mathlib

namespace EyeMechCtl

/-! ## Geometry of the radar surface (Interface._build_ui, lines 114-118)

`canvas_size = 400`, `margin = 20`,
`radius = canvas_size // 2 - margin`, `center = (canvas_size // 2, canvas_size // 2)`.
The Python `//` is floor division; 400 is even so it is exact and agrees
with rational division. -/

def canvas_size : ℤ := 400

def margin : ℤ := 20

def radius : ℤ := Int.fdiv canvas_size 2 - margin

def center_x : ℤ := Int.fdiv canvas_size 2

def center_y : ℤ := Int.fdiv canvas_size 2

/-! ## np.interp on a two-point table

`np.interp(v, [x0, x1], [y0, y1])` clamps to the end values outside
`[x0, x1]` and interpolates linearly inside. -/

def np_interp (v x0 x1 y0 y1 : ℚ) : ℚ :=
  if v ≤ x0 then y0
  else if x1 ≤ v then y1
  else y0 + (v - x0) * (y1 - y0) / (x1 - x0)

/-! ## Interface._update_dot_and_send (lines 183-201)

The handler first snaps the candidate point to the center when it lies
strictly outside the radar circle, then maps both coordinates linearly
to [-50, 50], negating y.  `target_point` is the snap step (lines
185-190), `update_dot_and_send` the full pixel → gaze mapping. -/

def target_point (x y : ℚ) : ℚ × ℚ :=
  if (x - (center_x : ℚ)) * (x - (center_x : ℚ)) + (y - (center_y : ℚ)) * (y - (center_y : ℚ)) ≤
      (radius : ℚ) * (radius : ℚ) then (x, y)
  else ((center_x : ℚ), (center_y : ℚ))

def update_dot_and_send (x y : ℚ) : ℚ × ℚ :=
  (np_interp (target_point x y).1
     ((center_x : ℚ) - (radius : ℚ)) ((center_x : ℚ) + (radius : ℚ)) (-50) 50,
   - np_interp (target_point x y).2
     ((center_y : ℚ) - (radius : ℚ)) ((center_y : ℚ) + (radius : ℚ)) (-50) 50)

/-! ## Decimal rendering

`digitChar d` is the ASCII digit for `d ≤ 9`.  `natDigits` produces the
decimal digits of a natural number, most significant first, mirroring how
Python renders integers; it is written with explicit fuel so that it
reduces definitionally. -/

def digitChar (d : ℕ) : Char := Char.ofNat (48 + d)

def natDigitsAux : ℕ → ℕ → List ℕ
  | 0, _ => []
  | f + 1, n => if n < 10 then [n] else natDigitsAux f (n / 10) ++ [n % 10]

def natDigits (n : ℕ) : List ℕ := natDigitsAux (n + 1) n

def natStr (n : ℕ) : String := String.mk ((natDigits n).map digitChar)

/-- Python `str` of an int / f-string interpolation of an int: an optional
minus sign followed by the decimal digits, no padding. -/
def intStr (i : ℤ) : String :=
  (if i < 0 then "-" else "") ++ natStr i.natAbs

/-- Python `"{:.2f}".format q`: sign, integer part, a point, and exactly two
decimal digits.  (At exact half-hundredth ties Python rounds the underlying
binary float half-to-even; no value reachable from the integer pixel grid of
this program hits a tie, so plain rounding is used.) -/
def fmt2 (q : ℚ) : String :=
  let m : ℕ := (round (|q| * 100)).toNat
  (if q < 0 then "-" else "") ++ natStr (m / 100) ++ "." ++
    String.mk [digitChar (m % 100 / 10), digitChar (m % 100 % 10)]

/-! ## EyeMech command encoder (lines 57-70)

Each operation hands exactly one line to `Communication.send`; the list
returned is the sequence of lines passed to the transport, in order. -/

def move_eye (x y : ℚ) : List String :=
  ["EYE " ++ fmt2 x ++ " " ++ fmt2 y]

def control_lid (delta : ℤ) : List String :=
  ["LID " ++ intStr delta]

def blink : List String :=
  ["BLINK"]

/-! ## Communication (lines 26-54)

The pyserial port object is modelled by its observable state: whether it is
open and the byte strings written so far.  `serial.Serial(...)` is an
external effect that either yields a fresh open port or raises; a call to
`connect` therefore takes the environment's outcome as an explicit
`Except String SerialPort` argument.  Both `send` and `connect` are total
Lean functions: neither can raise (the Python `connect` catches every
exception and returns `(False, str(e))`). -/

structure SerialPort where
  is_open : Bool
  written : List String

structure Communication where
  baudrate : ℕ
  ser : Option SerialPort
  port : Option String

/-- `Communication()` as constructed by the GUI (line 79): default baud rate
9600, no port object, no port name. -/
def Communication.init : Communication := ⟨9600, none, none⟩

/-- Python's truthiness test `self.ser and self.ser.is_open`. -/
def Communication.isOpen (c : Communication) : Bool :=
  match c.ser with
  | some s => s.is_open
  | none => false

def Communication.writtenLog (c : Communication) : List String :=
  match c.ser with
  | some s => s.written
  | none => []

/-- Communication.send (lines 50-54): write `cmd + "\n"` iff a port is open,
otherwise change nothing. -/
def Communication.send (c : Communication) (cmd : String) : Communication :=
  match c.ser with
  | some s =>
      if s.is_open then
        { c with ser := some { s with written := s.written ++ [cmd ++ "\n"] } }
      else c
  | none => c

/-- Externally visible transport actions performed by `connect`, in order. -/
inductive TAction where
  | closePort : TAction
  | openPort (port_name : String) (baud : ℕ) : TAction
  | sleepSec (secs : ℕ) : TAction

/-- Communication.connect (lines 37-48): close any open prior connection,
attempt to open `port_name` at the stored baud rate, and on success sleep two
seconds before reporting `(True, f"{port_name}@{baudrate}")`; on an open
failure report `(False, message)` with `self.ser = None` and `self.port`
untouched.  The returned list records the transport actions in program
order. -/
def Communication.connect (c : Communication) (port_name : String)
    (outcome : Except String SerialPort) :
    Communication × (Bool × String) × List TAction :=
  match outcome with
  | Except.ok p =>
      ({ c with ser := some p, port := some port_name },
       (true, port_name ++ "@" ++ natStr c.baudrate),
       (if c.isOpen then [TAction.closePort] else []) ++
         [TAction.openPort port_name c.baudrate, TAction.sleepSec 2])
  | Except.error e =>
      ({ c with ser := none },
       (false, e),
       (if c.isOpen then [TAction.closePort] else []) ++
         [TAction.openPort port_name c.baudrate])

/-! ## Interface._on_wheel (lines 203-213)

`event.delta` is 0 when the platform does not report continuous deltas
(`getattr(event, "delta", 0)` is falsy), and `event.num` is the X11 button
number when present.  Python's `//` is floor division, hence `Int.fdiv`. -/

structure WheelEvent where
  delta : ℤ
  num : Option ℕ

def on_wheel (e : WheelEvent) : List String :=
  if e.delta ≠ 0 then control_lid (Int.fdiv e.delta 120)
  else if e.num = some 4 then control_lid 1
  else if e.num = some 5 then control_lid (-1)
  else []

/-- Interface._on_right_click (lines 215-216). -/
def on_right_click : List String := blink

/-! ## Drag session (Interface.__init__ lines 82-85, handlers lines 165-181)

`time.time()` is external; every GUI event therefore carries its wall-clock
timestamp.  An `Emit` records one EYE command passed to the encoder: when it
was sent, whether it came from the unconditional pointer-press handler, and
the mapped gaze pair it carries. -/

def send_interval : ℚ := 1 / 100

structure DragState where
  dragging : Bool
  last_send_time : ℚ

/-- The state set up in `__init__`: `dragging = False`, `last_send_time = 0`. -/
def DragState.init : DragState := ⟨false, 0⟩

structure Emit where
  time : ℚ
  isPress : Bool
  pos : ℚ × ℚ

inductive GuiEvent where
  | press (t x y : ℚ)
  | move (t x y : ℚ)
  | release (t : ℚ)

def GuiEvent.time : GuiEvent → ℚ
  | press t _ _ => t
  | move t _ _ => t
  | release t => t

/-- Interface._on_left_press (lines 165-168): set `dragging` and emit
unconditionally; `last_send_time` is not touched. -/
def on_left_press (s : DragState) (t x y : ℚ) : DragState × List Emit :=
  ({ s with dragging := true }, [⟨t, true, update_dot_and_send x y⟩])

/-- Interface._on_drag (lines 170-177): ignore the event unless dragging;
emit and record the timestamp only when at least `send_interval` elapsed
since `last_send_time`. -/
def on_drag (s : DragState) (t x y : ℚ) : DragState × List Emit :=
  if s.dragging = false then (s, [])
  else if send_interval ≤ t - s.last_send_time then
    ({ s with last_send_time := t }, [⟨t, false, update_dot_and_send x y⟩])
  else (s, [])

/-- Interface._on_left_release (lines 179-181). -/
def on_left_release (s : DragState) (_t : ℚ) : DragState × List Emit :=
  ({ s with dragging := false }, [])

def stepEvent (s : DragState) : GuiEvent → DragState × List Emit
  | GuiEvent.press t x y => on_left_press s t x y
  | GuiEvent.move t x y => on_drag s t x y
  | GuiEvent.release t => on_left_release s t

def runEvents (s : DragState) : List GuiEvent → DragState × List Emit
  | [] => (s, [])
  | e :: es =>
      ((runEvents (stepEvent s e).1 es).1,
       (stepEvent s e).2 ++ (runEvents (stepEvent s e).1 es).2)

/-- The emits that came from the throttled move handler (press emits are the
exception the spec carves out). -/
def moveEmits (l : List Emit) : List Emit := l.filter (fun m => !m.isPress)

/-- The linear interval map exactly as the spec phrases it: `v` is carried
from `[lo, hi]` onto `[olo, ohi]`. -/
def specLinMap (lo hi olo ohi v : ℚ) : ℚ :=
  olo + (v - lo) * (ohi - olo) / (hi - lo)

/-- A string consisting of an optional minus sign, a nonempty run of decimal
digits, a decimal point, and exactly two further decimal digits. -/
def fixedTwoDecimalStr (s : String) : Prop :=
  ∃ (sign : String) (ip : List Char) (a b : Char),
    (sign = "" ∨ sign = "-") ∧ ip ≠ [] ∧ (∀ c ∈ ip, c.isDigit = true) ∧
    a.isDigit = true ∧ b.isDigit = true ∧
    s = sign ++ String.mk ip ++ "." ++ String.mk [a, b]

/-- `s` renders the integer `i` plainly: an optional minus sign followed by a
nonempty run of decimal digits with no leading zero (hence no padding). -/
def plainSignedIntStr (s : String) (i : ℤ) : Prop :=
  ∃ ds : List Char,
    ds ≠ [] ∧ (∀ c ∈ ds, c.isDigit = true) ∧
    (∀ c, ds.head? = some c → (c ≠ '0' ∨ i = 0)) ∧
    s = (if i < 0 then "-" else "") ++ String.mk ds

/-! ## Values of the geometry constants -/

theorem center_x_eq : center_x = 200 := by decide

theorem center_y_eq : center_y = 200 := by decide

theorem radius_eq : radius = 180 := by decide

theorem center_x_q : (center_x : ℚ) = 200 := by rw [center_x_eq]; norm_num

theorem center_y_q : (center_y : ℚ) = 200 := by rw [center_y_eq]; norm_num

theorem radius_q : (radius : ℚ) = 180 := by rw [radius_eq]; norm_num

/-! ## Behaviour of the snap-to-center step and of the mapping -/

theorem target_point_inside {x y : ℚ} (h : (x - 200) ^ 2 + (y - 200) ^ 2 ≤ 180 ^ 2) :
    target_point x y = (x, y) := by
  unfold target_point
  rw [center_x_q, center_y_q, radius_q]
  split_ifs with hc
  · rfl
  · exact absurd (by nlinarith) hc

theorem target_point_outside {x y : ℚ} (h : 180 ^ 2 < (x - 200) ^ 2 + (y - 200) ^ 2) :
    target_point x y = (200, 200) := by
  unfold target_point
  rw [center_x_q, center_y_q, radius_q]
  split_ifs with hc
  · exact absurd (by nlinarith) (not_lt.mpr hc)
  · rfl

theorem inside_bound_x {x y : ℚ} (h : (x - 200) ^ 2 + (y - 200) ^ 2 ≤ 180 ^ 2) :
    20 ≤ x ∧ x ≤ 380 := by
  constructor <;> nlinarith [sq_nonneg (y - 200)]

theorem np_interp_linear {v : ℚ} (h0 : 20 ≤ v) (h1 : v ≤ 380) :
    np_interp v 20 380 (-50) 50 = -50 + (v - 20) * 100 / 360 := by
  unfold np_interp
  split_ifs with hv hv'
  · have : v = 20 := le_antisymm hv h0
    subst this; norm_num
  · have : v = 380 := le_antisymm h1 hv'
    subst this; norm_num
  · norm_num

/-- Inside the radar circle the handler applies the exact linear maps. -/
theorem update_dot_inside {x y : ℚ} (h : (x - 200) ^ 2 + (y - 200) ^ 2 ≤ 180 ^ 2) :
    update_dot_and_send x y =
      (-50 + (x - 20) * 100 / 360, -(-50 + (y - 20) * 100 / 360)) := by
  have hx := inside_bound_x h
  have hy := inside_bound_x (by nlinarith : (y - 200) ^ 2 + (x - 200) ^ 2 ≤ 180 ^ 2)
  unfold update_dot_and_send
  rw [center_x_q, center_y_q, radius_q, target_point_inside h]
  have e1 : ((200 : ℚ) - 180) = 20 := by norm_num
  have e2 : ((200 : ℚ) + 180) = 380 := by norm_num
  dsimp only
  rw [e1, e2, np_interp_linear hx.1 hx.2, np_interp_linear hy.1 hy.2]

/-- Strictly outside the circle the point snaps to the center, which maps
to the origin of the gaze range. -/
theorem update_dot_outside {x y : ℚ} (h : 180 ^ 2 < (x - 200) ^ 2 + (y - 200) ^ 2) :
    update_dot_and_send x y = (0, 0) := by
  unfold update_dot_and_send
  rw [center_x_q, center_y_q, radius_q, target_point_outside h]
  norm_num [np_interp]

/-- C1: for every pointer position on or inside the radar circle, the emitted
gaze pair is the linear map of x from [cx−r, cx+r] onto [−50, 50] paired with
the negated linear map of y; and the three concrete examples of the spec hold.
(The Python float would print the y-coordinate of the third example as
"-0.00"; numerically `-0 = 0`, which is what the rational model records.) -/
theorem C1_linear_map :
    (∀ x y : ℚ,
        (x - (center_x : ℚ)) ^ 2 + (y - (center_y : ℚ)) ^ 2 ≤ (radius : ℚ) ^ 2 →
        update_dot_and_send x y =
          (specLinMap ((center_x : ℚ) - radius) ((center_x : ℚ) + radius) (-50) 50 x,
           - specLinMap ((center_y : ℚ) - radius) ((center_y : ℚ) + radius) (-50) 50 y)) ∧
    update_dot_and_send 200 20 = (0, 50) ∧
    update_dot_and_send 20 200 = (-50, 0) ∧
    update_dot_and_send 500 500 = (0, -0) := by
  refine ⟨fun x y h => ?_, ?_, ?_, ?_⟩
  · rw [center_x_q, center_y_q, radius_q] at h
    rw [update_dot_inside h]
    unfold specLinMap
    rw [center_x_q, center_y_q, radius_q]
    norm_num
  · rw [update_dot_inside (by norm_num)]; norm_num
  · rw [update_dot_inside (by norm_num)]; norm_num
  · rw [update_dot_outside (by norm_num)]; norm_num

/-- Witness for C1 at the concrete boundary point (200, 20). -/
theorem C1_linear_map_witness :
    update_dot_and_send 200 20 =
      (specLinMap ((center_x : ℚ) - radius) ((center_x : ℚ) + radius) (-50) 50 200,
       - specLinMap ((center_y : ℚ) - radius) ((center_y : ℚ) + radius) (-50) 50 20) :=
  C1_linear_map.1 200 20 (by rw [center_x_q, center_y_q, radius_q]; norm_num)

/-- C4: a pointer position strictly outside the circular boundary collapses to
the exact center and maps to (0, 0); positions on or inside the boundary are
left where they are by the snap step. -/
theorem C4_snap_to_center :
    ∀ x y : ℚ,
      ((x - (center_x : ℚ)) ^ 2 + (y - (center_y : ℚ)) ^ 2 > (radius : ℚ) ^ 2 →
        target_point x y = ((center_x : ℚ), (center_y : ℚ)) ∧
        update_dot_and_send x y = (0, 0)) ∧
      ((x - (center_x : ℚ)) ^ 2 + (y - (center_y : ℚ)) ^ 2 ≤ (radius : ℚ) ^ 2 →
        target_point x y = (x, y)) := by
  intro x y
  rw [center_x_q, center_y_q, radius_q]
  refine ⟨fun h => ⟨?_, update_dot_outside h⟩, fun h => target_point_inside h⟩
  rw [target_point_outside h]

/-- Witness for C4: (500, 500) is strictly outside and snaps to the center,
(200, 20) is on the boundary and is not snapped. -/
theorem C4_snap_to_center_witness :
    (target_point 500 500 = ((center_x : ℚ), (center_y : ℚ)) ∧
      update_dot_and_send 500 500 = (0, 0)) ∧
    target_point 200 20 = (200, 20) :=
  ⟨(C4_snap_to_center 500 500).1 (by rw [center_x_q, center_y_q, radius_q]; norm_num),
   (C4_snap_to_center 200 20).2 (by rw [center_x_q, center_y_q, radius_q]; norm_num)⟩

/-- C9 as stated is false: crossing the clamp boundary from outside to inside
makes the mapped x output jump downward.  With y = 200 fixed, the pointer
x-coordinate 19 lies strictly outside the circle and maps to 0, while x = 20
lies on the boundary and maps to -50: increasing x strictly decreased the
mapped output, which is neither an increase nor "held constant at the clamp". -/
theorem C9_counterexample :
    (19 : ℚ) < 20 ∧
    (update_dot_and_send 19 200).1 = 0 ∧
    (update_dot_and_send 20 200).1 = -50 ∧
    ¬ (update_dot_and_send 19 200).1 ≤ (update_dot_and_send 20 200).1 := by
  have h19 : update_dot_and_send 19 200 = (0, 0) := update_dot_outside (by norm_num)
  have h20 := update_dot_inside (x := 20) (y := 200) (by norm_num)
  refine ⟨by norm_num, ?_, ?_, ?_⟩
  · rw [h19]
  · rw [h20]; norm_num
  · rw [h19, h20]; norm_num

/-- C9 amended: for a fixed y, the mapped x output is strictly increasing in
the pointer x coordinate as long as both positions lie on or inside the
circular boundary, and it is constant (0) on positions strictly outside the
boundary; monotonicity does not extend across the boundary. -/
theorem C9_monotone_inside :
    (∀ y x₁ x₂ : ℚ,
        (x₁ - (center_x : ℚ)) ^ 2 + (y - (center_y : ℚ)) ^ 2 ≤ (radius : ℚ) ^ 2 →
        (x₂ - (center_x : ℚ)) ^ 2 + (y - (center_y : ℚ)) ^ 2 ≤ (radius : ℚ) ^ 2 →
        x₁ < x₂ →
        (update_dot_and_send x₁ y).1 < (update_dot_and_send x₂ y).1) ∧
    (∀ x y : ℚ,
        (x - (center_x : ℚ)) ^ 2 + (y - (center_y : ℚ)) ^ 2 > (radius : ℚ) ^ 2 →
        (update_dot_and_send x y).1 = 0) := by
  constructor
  · intro y x₁ x₂ h1 h2 hlt
    rw [center_x_q, center_y_q, radius_q] at h1 h2
    rw [update_dot_inside h1, update_dot_inside h2]
    dsimp only
    linarith
  · intro x y h
    rw [center_x_q, center_y_q, radius_q] at h
    rw [update_dot_outside h]

/-- Witness for the amended C9 at y = 200, x₁ = 100, x₂ = 300 (both inside)
and at the outside point (500, 500). -/
theorem C9_monotone_inside_witness :
    (update_dot_and_send 100 200).1 < (update_dot_and_send 300 200).1 ∧
    (update_dot_and_send 500 500).1 = 0 :=
  ⟨C9_monotone_inside.1 200 100 300
      (by rw [center_x_q, center_y_q, radius_q]; norm_num)
      (by rw [center_x_q, center_y_q, radius_q]; norm_num) (by norm_num),
   C9_monotone_inside.2 500 500 (by rw [center_x_q, center_y_q, radius_q]; norm_num)⟩

/-! ## Shape of the rendered numbers -/

theorem natDigitsAux_spec : ∀ f n : ℕ, n < f →
    natDigitsAux f n ≠ [] ∧ (∀ d ∈ natDigitsAux f n, d < 10) ∧
    (n ≠ 0 → (natDigitsAux f n).head? ≠ some 0) := by
  intro f
  induction f with
  | zero => intro n h; exact absurd h (Nat.not_lt_zero n)
  | succ f ih =>
    intro n h
    by_cases h10 : n < 10
    · refine ⟨by simp [natDigitsAux, h10], ?_, ?_⟩
      · intro d hd
        simp only [natDigitsAux, if_pos h10, List.mem_singleton] at hd
        omega
      · intro hn
        simp [natDigitsAux, h10, hn]
    · have hrec := ih (n / 10) (by omega)
      obtain ⟨a, t, ht⟩ := List.exists_cons_of_ne_nil hrec.1
      refine ⟨by simp [natDigitsAux, h10], ?_, ?_⟩
      · intro d hd
        simp only [natDigitsAux, if_neg h10, List.mem_append, List.mem_singleton] at hd
        rcases hd with hd | hd
        · exact hrec.2.1 d hd
        · omega
      · intro _
        have ha : a ≠ 0 := by
          have := hrec.2.2 (by omega)
          rw [ht] at this
          simpa using this
        simp [natDigitsAux, h10, ht, ha]

theorem natDigits_spec (n : ℕ) :
    natDigits n ≠ [] ∧ (∀ d ∈ natDigits n, d < 10) ∧
    (n ≠ 0 → (natDigits n).head? ≠ some 0) :=
  natDigitsAux_spec (n + 1) n (Nat.lt_succ_self n)

theorem digitChar_isDigit {d : ℕ} (h : d < 10) : (digitChar d).isDigit = true := by
  interval_cases d <;> decide

theorem digitChar_ne_zeroChar {d : ℕ} (h : d < 10) (h0 : d ≠ 0) : digitChar d ≠ '0' := by
  interval_cases d <;> simp_all <;> decide

theorem intStr_plain (i : ℤ) : plainSignedIntStr (intStr i) i := by
  obtain ⟨hne, hdig, hhead⟩ := natDigits_spec i.natAbs
  refine ⟨(natDigits i.natAbs).map digitChar, by simpa using hne, ?_, ?_, rfl⟩
  · intro c hc
    obtain ⟨d, hd, rfl⟩ := List.mem_map.mp hc
    exact digitChar_isDigit (hdig d hd)
  · intro c hc
    by_cases hi : i = 0
    · exact Or.inr hi
    · left
      rw [List.head?_map] at hc
      obtain ⟨a, t, ht⟩ := List.exists_cons_of_ne_nil hne
      rw [ht] at hc
      have ha : a ≠ 0 := by
        have := hhead (by simpa using hi)
        rw [ht] at this
        simpa using this
      have ha10 : a < 10 := hdig a (by rw [ht]; exact List.mem_cons_self a t)
      have hac : digitChar a = c := by simpa using hc
      rw [← hac]
      exact digitChar_ne_zeroChar ha10 ha

theorem fmt2_shape (q : ℚ) : fixedTwoDecimalStr (fmt2 q) := by
  refine ⟨(if q < 0 then "-" else ""),
    (natDigits ((round (|q| * 100)).toNat / 100)).map digitChar,
    digitChar ((round (|q| * 100)).toNat % 100 / 10),
    digitChar ((round (|q| * 100)).toNat % 100 % 10), ?_, ?_, ?_, ?_, ?_, rfl⟩
  · split_ifs <;> simp
  · simpa using (natDigits_spec _).1
  · intro c hc
    obtain ⟨d, hd, rfl⟩ := List.mem_map.mp hc
    exact digitChar_isDigit ((natDigits_spec _).2.1 d hd)
  · exact digitChar_isDigit (by omega)
  · exact digitChar_isDigit (by omega)

/-- C5: each encoder operation hands exactly one line, verbatim, to the
transport: `move_eye` a single "EYE <x> <y>" line with both coordinates in
fixed two-decimal format, `control_lid` a single "LID <delta>" line with the
delta as a plain unpadded signed integer, and `blink` the single line
"BLINK". -/
theorem C5_encoder :
    (∀ x y : ℚ, move_eye x y = ["EYE " ++ fmt2 x ++ " " ++ fmt2 y] ∧
        fixedTwoDecimalStr (fmt2 x) ∧ fixedTwoDecimalStr (fmt2 y)) ∧
    (∀ d : ℤ, control_lid d = ["LID " ++ intStr d] ∧ plainSignedIntStr (intStr d) d) ∧
    blink = ["BLINK"] :=
  ⟨fun x y => ⟨rfl, fmt2_shape x, fmt2_shape y⟩,
   fun d => ⟨rfl, intStr_plain d⟩, rfl⟩

/-- C8: a wheel gesture emits exactly one LID command, one step per discrete
notch: a continuous delta of 120·k yields "LID k" (in particular 240 yields
"LID 2"), and the Linux-style discrete buttons 4/5 yield "LID 1"/"LID -1". -/
theorem C8_wheel_notches :
    (∀ k : ℤ, k ≠ 0 → ∀ n, on_wheel ⟨120 * k, n⟩ = ["LID " ++ intStr k]) ∧
    on_wheel ⟨240, none⟩ = ["LID 2"] ∧
    on_wheel ⟨0, some 4⟩ = ["LID 1"] ∧
    on_wheel ⟨0, some 5⟩ = ["LID -1"] := by
  refine ⟨fun k hk n => ?_, rfl, rfl, rfl⟩
  have h120 : (120 : ℤ) * k ≠ 0 := mul_ne_zero (by norm_num) hk
  unfold on_wheel
  rw [if_pos h120]
  have hq : Int.fdiv ((120 : ℤ) * k) 120 = k := by
    rw [Int.fdiv_eq_ediv _ (by norm_num)]; omega
  rw [hq]
  rfl

/-- Witness for C8 at the two-notch gesture 120·2 = 240. -/
theorem C8_wheel_notches_witness :
    on_wheel ⟨120 * 2, none⟩ = ["LID " ++ intStr 2] :=
  C8_wheel_notches.1 2 (by norm_num) none

/-- C10: nonzero deltas smaller than a full notch still emit a command, with
step count `⌊delta / 120⌋`: "LID 0" on (0, 120) and "LID -1" on (-120, 0)
(floor division truncates toward negative infinity), while a zero delta with
a button number other than 4 or 5 emits nothing. -/
theorem C10_subnotch_deltas :
    (∀ e : WheelEvent, e.delta ≠ 0 →
        on_wheel e = ["LID " ++ intStr (Int.fdiv e.delta 120)]) ∧
    (∀ (d : ℤ) (n : Option ℕ), 0 < d → d < 120 → on_wheel ⟨d, n⟩ = ["LID 0"]) ∧
    (∀ (d : ℤ) (n : Option ℕ), -120 < d → d < 0 → on_wheel ⟨d, n⟩ = ["LID -1"]) ∧
    (∀ n : Option ℕ, n ≠ some 4 → n ≠ some 5 → on_wheel ⟨0, n⟩ = []) := by
  refine ⟨fun e he => ?_, fun d n h1 h2 => ?_, fun d n h1 h2 => ?_, fun n h4 h5 => ?_⟩
  · unfold on_wheel
    rw [if_pos he]
    rfl
  · unfold on_wheel
    rw [if_pos (show (⟨d, n⟩ : WheelEvent).delta ≠ 0 by show d ≠ 0; omega)]
    have hq : Int.fdiv d 120 = 0 := by
      rw [Int.fdiv_eq_ediv _ (by norm_num)]
      show d / 120 = 0
      omega
    show control_lid (Int.fdiv d 120) = _
    rw [hq]
    rfl
  · unfold on_wheel
    rw [if_pos (show (⟨d, n⟩ : WheelEvent).delta ≠ 0 by show d ≠ 0; omega)]
    have hq : Int.fdiv d 120 = -1 := by
      rw [Int.fdiv_eq_ediv _ (by norm_num)]
      show d / 120 = -1
      omega
    show control_lid (Int.fdiv d 120) = _
    rw [hq]
    rfl
  · unfold on_wheel
    rw [if_neg (by simp : ¬ (⟨0, n⟩ : WheelEvent).delta ≠ 0), if_neg (by simpa using h4),
      if_neg (by simpa using h5)]

/-- Witness for C10: a half-notch up emits "LID 0", a half-notch down emits
"LID -1", and a zero-delta event with no button number emits nothing. -/
theorem C10_subnotch_deltas_witness :
    on_wheel ⟨60, none⟩ = ["LID 0"] ∧ on_wheel ⟨-60, none⟩ = ["LID -1"] ∧
    on_wheel ⟨0, none⟩ = [] :=
  ⟨C10_subnotch_deltas.2.1 60 none (by norm_num) (by norm_num),
   C10_subnotch_deltas.2.2.1 (-60) none (by norm_num) (by norm_num),
   C10_subnotch_deltas.2.2.2 none (by simp) (by simp)⟩

/-- C6: `send` appends the newline terminator and writes the line exactly when
a connection is open (leaving the port identity, the open flag and the baud
rate as they were), and is the identity — a silent no-op, with no error
value and no exception, since the function is total — when it is not. -/
theorem C6_send_iff_open :
    ∀ (c : Communication) (cmd : String),
      (c.isOpen = true →
        (c.send cmd).writtenLog = c.writtenLog ++ [cmd ++ "\n"] ∧
        (c.send cmd).isOpen = true ∧
        (c.send cmd).port = c.port ∧
        (c.send cmd).baudrate = c.baudrate) ∧
      (c.isOpen = false → c.send cmd = c) := by
  intro c cmd
  obtain ⟨b, ser, port⟩ := c
  constructor
  · intro hopen
    match ser with
    | none => simp [Communication.isOpen] at hopen
    | some s =>
      have hs : s.is_open = true := by simpa [Communication.isOpen] using hopen
      simp [Communication.send, Communication.isOpen, Communication.writtenLog, hs]
  · intro hclosed
    match ser with
    | none => rfl
    | some s =>
      have hs : s.is_open = false := by simpa [Communication.isOpen] using hclosed
      simp [Communication.send, hs]

/-- Witness for C6: with an open port the line goes out newline-terminated;
on the freshly initialised (closed) transport the same call changes
nothing. -/
theorem C6_send_iff_open_witness :
    ((⟨9600, some ⟨true, []⟩, some "COM3"⟩ : Communication).send "BLINK").writtenLog =
      ["BLINK\n"] ∧
    Communication.init.send "BLINK" = Communication.init :=
  ⟨by
    have := ((C6_send_iff_open ⟨9600, some ⟨true, []⟩, some "COM3"⟩ "BLINK").1 rfl).1
    simpa using this,
   (C6_send_iff_open Communication.init "BLINK").2 rfl⟩

/-- C7: on a transport whose stored baud rate is the fixed 9600 (as built by
the GUI), `connect` first closes any open prior connection, then attempts the
open at 9600; on success a 2-second settle sleep happens after the open and
before success is reported, and on any open failure the call returns
`(false, message)` — an error value rather than an exception, the function
being total — leaving the connection closed and the stored port name
untouched. -/
theorem C7_connect :
    ∀ (c : Communication) (name : String) (outcome : Except String SerialPort),
      c.baudrate = 9600 →
      (∀ p, outcome = Except.ok p →
        (c.connect name outcome).2.2 =
          (if c.isOpen then [TAction.closePort] else []) ++
            [TAction.openPort name 9600, TAction.sleepSec 2] ∧
        (c.connect name outcome).2.1 = (true, name ++ "@9600") ∧
        (c.connect name outcome).1.ser = some p ∧
        (c.connect name outcome).1.port = some name) ∧
      (∀ e, outcome = Except.error e →
        (c.connect name outcome).2.1 = (false, e) ∧
        (c.connect name outcome).1.ser = none ∧
        (c.connect name outcome).1.isOpen = false ∧
        (c.connect name outcome).1.port = c.port ∧
        (c.connect name outcome).2.2 =
          (if c.isOpen then [TAction.closePort] else []) ++
            [TAction.openPort name 9600]) := by
  intro c name outcome hbaud
  constructor
  · rintro p rfl
    refine ⟨by rw [Communication.connect, hbaud], ?_, rfl, rfl⟩
    show (true, name ++ "@" ++ natStr c.baudrate) = (true, name ++ "@9600")
    rw [hbaud, show natStr 9600 = "9600" from rfl, String.append_assoc,
      show "@" ++ "9600" = "@9600" from rfl]
  · rintro e rfl
    exact ⟨rfl, rfl, rfl, rfl, by rw [Communication.connect, hbaud]⟩

/-- Witness for C7 on the freshly initialised transport, for both a
successful open and a failing one. -/
theorem C7_connect_witness :
    (Communication.init.connect "COM3" (Except.ok ⟨true, []⟩)).2.1 =
      (true, "COM3@9600") ∧
    (Communication.init.connect "COM3" (Except.error "could not open port")).2.1 =
      (false, "could not open port") ∧
    (Communication.init.connect "COM3" (Except.error "could not open port")).1.isOpen =
      false :=
  ⟨((C7_connect Communication.init "COM3" (Except.ok ⟨true, []⟩) rfl).1
      ⟨true, []⟩ rfl).2.1,
   ((C7_connect Communication.init "COM3" (Except.error "could not open port") rfl).2
      "could not open port" rfl).1,
   ((C7_connect Communication.init "COM3" (Except.error "could not open port") rfl).2
      "could not open port" rfl).2.2.1⟩

/-! ## Throttling lemmas -/

theorem send_interval_pos : 0 < send_interval := by norm_num [send_interval]

theorem moveEmits_append (l1 l2 : List Emit) :
    moveEmits (l1 ++ l2) = moveEmits l1 ++ moveEmits l2 := by
  simp [moveEmits]

theorem runEvents_cons (s : DragState) (e : GuiEvent) (es : List GuiEvent) :
    runEvents s (e :: es) =
      ((runEvents (stepEvent s e).1 es).1,
       (stepEvent s e).2 ++ (runEvents (stepEvent s e).1 es).2) := rfl

/-- The move handler enforces the configured gap: every throttled emit is at
least `send_interval` after the incoming `last_send_time`, and the throttled
emits are pairwise at least `send_interval` apart. -/
theorem drag_emit_invariant :
    ∀ (es : List GuiEvent) (s : DragState),
      (∀ m ∈ moveEmits (runEvents s es).2,
          s.last_send_time + send_interval ≤ m.time) ∧
      List.Pairwise (fun a b : Emit => a.time + send_interval ≤ b.time)
        (moveEmits (runEvents s es).2) := by
  intro es
  induction es with
  | nil =>
    intro s
    simp [runEvents, moveEmits]
  | cons e es ih =>
    intro s
    rw [runEvents_cons, moveEmits_append]
    match e with
    | GuiEvent.press t x y =>
      have hout : moveEmits (stepEvent s (GuiEvent.press t x y)).2 = [] := rfl
      rw [hout, List.nil_append]
      exact ih (stepEvent s (GuiEvent.press t x y)).1
    | GuiEvent.release t =>
      have hout : moveEmits (stepEvent s (GuiEvent.release t)).2 = [] := rfl
      rw [hout, List.nil_append]
      exact ih (stepEvent s (GuiEvent.release t)).1
    | GuiEvent.move t x y =>
      by_cases hd : s.dragging = false
      · have hstep : stepEvent s (GuiEvent.move t x y) = (s, []) := by
          simp [stepEvent, on_drag, hd]
        rw [hstep]
        simpa [moveEmits] using ih s
      · by_cases hgap : send_interval ≤ t - s.last_send_time
        · have hstep : stepEvent s (GuiEvent.move t x y) =
              ({ s with last_send_time := t },
               [⟨t, false, update_dot_and_send x y⟩]) := by
            simp [stepEvent, on_drag, hd, hgap]
          rw [hstep]
          have h := ih { s with last_send_time := t }
          have hm1 : moveEmits [(⟨t, false, update_dot_and_send x y⟩ : Emit)] =
              [⟨t, false, update_dot_and_send x y⟩] := rfl
          dsimp only
          rw [hm1, List.singleton_append]
          have hsi := send_interval_pos
          constructor
          · intro m hm
            rcases List.mem_cons.mp hm with rfl | hm'
            · dsimp only
              linarith
            · have := h.1 m hm'
              dsimp only at this
              linarith
          · refine List.Pairwise.cons ?_ h.2
            intro b hb
            have := h.1 b hb
            dsimp only at this
            exact this
        · have hstep : stepEvent s (GuiEvent.move t x y) = (s, []) := by
            simp [stepEvent, on_drag, hd, hgap]
          rw [hstep]
          simpa [moveEmits] using ih s

/-- Every emit happens at the timestamp of one of the processed events, so
event-time bounds carry over to emit times. -/
theorem emit_time_bound :
    ∀ (es : List GuiEvent) (s : DragState) (lo hi : ℚ),
      (∀ e ∈ es, lo ≤ GuiEvent.time e ∧ GuiEvent.time e ≤ hi) →
      ∀ m ∈ (runEvents s es).2, lo ≤ m.time ∧ m.time ≤ hi := by
  intro es
  induction es with
  | nil =>
    intro s lo hi _ m hm
    simp [runEvents] at hm
  | cons e es ih =>
    intro s lo hi hb m hm
    rw [runEvents_cons] at hm
    rcases List.mem_append.mp hm with h1 | h2
    · have he := hb e (List.mem_cons_self e es)
      match e with
      | GuiEvent.press t x y =>
        have : m = ⟨t, true, update_dot_and_send x y⟩ := by
          simpa [stepEvent, on_left_press] using h1
        rw [this]
        exact he
      | GuiEvent.move t x y =>
        simp only [stepEvent, on_drag] at h1
        split_ifs at h1 <;> simp at h1
        rw [h1]
        exact he
      | GuiEvent.release t =>
        simp [stepEvent, on_left_release] at h1
    · exact ih _ lo hi (fun e' he' => hb e' (List.mem_cons_of_mem _ he')) m h2

/-- When every processed event is a move event, every emit is a throttled
move emit. -/
theorem emits_all_move :
    ∀ (es : List GuiEvent) (s : DragState),
      (∀ e ∈ es, ∃ t x y, e = GuiEvent.move t x y) →
      moveEmits (runEvents s es).2 = (runEvents s es).2 := by
  intro es
  induction es with
  | nil =>
    intro s _
    simp [runEvents, moveEmits]
  | cons e es ih =>
    intro s h
    obtain ⟨t, x, y, rfl⟩ := h e (List.mem_cons_self e es)
    rw [runEvents_cons]
    dsimp only
    rw [moveEmits_append]
    have h1 : moveEmits (stepEvent s (GuiEvent.move t x y)).2 =
        (stepEvent s (GuiEvent.move t x y)).2 := by
      simp only [stepEvent, on_drag]
      split_ifs <;> rfl
    rw [h1, ih _ (fun e' he' => h e' (List.mem_cons_of_mem _ he'))]

/-- A list of rationals pairwise at least `send_interval` apart and confined
to `[lo, hi]` has at most `(hi - lo)/send_interval + 1` elements. -/
theorem pairwise_gap_length :
    ∀ (l : List ℚ) (lo hi : ℚ), lo ≤ hi →
      List.Pairwise (fun a b => a + send_interval ≤ b) l →
      (∀ x ∈ l, lo ≤ x ∧ x ≤ hi) →
      (l.length : ℚ) * send_interval ≤ hi - lo + send_interval := by
  intro l
  induction l with
  | nil =>
    intro lo hi hlohi _ _
    have := send_interval_pos
    simp
    linarith
  | cons a l ih =>
    intro lo hi hlohi hpw hb
    have ha := hb a (List.mem_cons_self a l)
    have hpw' := List.pairwise_cons.mp hpw
    have hsi := send_interval_pos
    by_cases hl : l = []
    · subst hl
      simp
      linarith [ha.1, ha.2]
    · obtain ⟨b, l', rfl⟩ := List.exists_cons_of_ne_nil hl
      have hb' : ∀ x ∈ b :: l', lo + send_interval ≤ x ∧ x ≤ hi := by
        intro x hx
        refine ⟨?_, (hb x (List.mem_cons_of_mem _ hx)).2⟩
        have := hpw'.1 x hx
        linarith [ha.1]
      have hlohi' : lo + send_interval ≤ hi := by
        have h1 := hb' b (List.mem_cons_self b l')
        linarith [h1.1, h1.2]
      have := ih (lo + send_interval) hi hlohi' hpw'.2 hb'
      simp only [List.length_cons] at this ⊢
      push_cast at this ⊢
      linarith

/-- C2 as stated is false on the code.  Session: press at time 1 (the state
still carries the initial `last_send_time = 0`), then moves at times 1,
1 + 1/200 and 1 + 1/100 — sub-interval spacing over a duration of 1/100.
The run emits 3 EYE commands, but the claimed bound is
⌈(1/100)/interval⌉ + 1 = 2: the press emit does not update the throttle
timestamp, so the first move emit fires immediately. -/
theorem C2_counterexample :
    ((1 + 1 / 200 : ℚ) - 1 < send_interval ∧
     (1 + 1 / 100 : ℚ) - (1 + 1 / 200) < send_interval) ∧
    (runEvents DragState.init
        [GuiEvent.press 1 200 200, GuiEvent.move 1 200 200,
         GuiEvent.move (1 + 1 / 200) 200 200,
         GuiEvent.move (1 + 1 / 100) 200 200]).2.length = 3 ∧
    ⌈(1 / 100 : ℚ) / send_interval⌉ + 1 = 2 := by
  refine ⟨⟨by norm_num [send_interval], by norm_num [send_interval]⟩, ?_, ?_⟩
  · norm_num [runEvents, stepEvent, on_drag, on_left_press, DragState.init,
      send_interval]
  · have h1 : ((1 : ℚ) / 100) / send_interval = 1 := by
      norm_num [send_interval]
    rw [h1]
    norm_num

/-- C2 corrected: within one drag session — a pointer-press followed by move
events whose timestamps lie in a window of width d — the throttled move
emits are pairwise at least the configured interval apart (the press emit is
the unconditional exception), and the total number of emitted EYE commands
is at most ⌊d / interval⌋ + 2.  The extra command over the claimed
⌈d/interval⌉ + 1 arises because the press emit leaves `last_send_time`
unchanged. -/
theorem C2_throttle :
    ∀ (s : DragState) (t0 x0 y0 d : ℚ) (moves : List GuiEvent),
      0 ≤ d →
      (∀ e ∈ moves, (∃ t x y, e = GuiEvent.move t x y) ∧
          t0 ≤ GuiEvent.time e ∧ GuiEvent.time e ≤ t0 + d) →
      List.Pairwise (fun a b : Emit => a.time + send_interval ≤ b.time)
        (moveEmits (runEvents s (GuiEvent.press t0 x0 y0 :: moves)).2) ∧
      ((runEvents s (GuiEvent.press t0 x0 y0 :: moves)).2.length : ℤ) ≤
        ⌊d / send_interval⌋ + 2 := by
  intro s t0 x0 y0 d moves hd hmoves
  refine ⟨(drag_emit_invariant (GuiEvent.press t0 x0 y0 :: moves) s).2, ?_⟩
  have hrun : (runEvents s (GuiEvent.press t0 x0 y0 :: moves)).2 =
      [⟨t0, true, update_dot_and_send x0 y0⟩] ++
        (runEvents (stepEvent s (GuiEvent.press t0 x0 y0)).1 moves).2 := rfl
  set s1 := (stepEvent s (GuiEvent.press t0 x0 y0)).1
  rw [hrun, List.length_append]
  have hall : moveEmits (runEvents s1 moves).2 = (runEvents s1 moves).2 :=
    emits_all_move moves s1 (fun e he => (hmoves e he).1)
  have hpw : List.Pairwise (fun a b : Emit => a.time + send_interval ≤ b.time)
      (runEvents s1 moves).2 := by
    have := (drag_emit_invariant moves s1).2
    rwa [hall] at this
  have hbnd : ∀ m ∈ (runEvents s1 moves).2, t0 ≤ m.time ∧ m.time ≤ t0 + d :=
    emit_time_bound moves s1 t0 (t0 + d)
      (fun e he => ⟨(hmoves e he).2.1, (hmoves e he).2.2⟩)
  have hsi := send_interval_pos
  have hlen : (((runEvents s1 moves).2.length : ℚ)) * send_interval ≤
      d + send_interval := by
    have hpwt : List.Pairwise (fun a b : ℚ => a + send_interval ≤ b)
        ((runEvents s1 moves).2.map Emit.time) := by
      rw [List.pairwise_map]
      exact hpw
    have hbt : ∀ x ∈ (runEvents s1 moves).2.map Emit.time,
        t0 ≤ x ∧ x ≤ t0 + d := by
      intro x hx
      obtain ⟨m, hm, rfl⟩ := List.mem_map.mp hx
      exact hbnd m hm
    have := pairwise_gap_length ((runEvents s1 moves).2.map Emit.time)
      t0 (t0 + d) (by linarith) hpwt hbt
    simpa using this
  have hfloor : (((runEvents s1 moves).2.length : ℤ)) ≤ ⌊d / send_interval⌋ + 1 := by
    have hq : (((runEvents s1 moves).2.length : ℤ) : ℚ) - 1 ≤ d / send_interval := by
      rw [le_div_iff₀ hsi]
      push_cast
      linarith
    have h2 : ((runEvents s1 moves).2.length : ℤ) - 1 ≤ ⌊d / send_interval⌋ :=
      Int.le_floor.mpr (by push_cast at hq ⊢; linarith)
    linarith
  simp only [List.length_singleton]
  push_cast
  linarith

/-- Witness for the corrected C2: a press at time 1 followed by one move at
the same instant (a zero-duration session). -/
theorem C2_throttle_witness :
    List.Pairwise (fun a b : Emit => a.time + send_interval ≤ b.time)
      (moveEmits (runEvents DragState.init
        [GuiEvent.press 1 200 200, GuiEvent.move 1 200 200]).2) ∧
    ((runEvents DragState.init
        [GuiEvent.press 1 200 200, GuiEvent.move 1 200 200]).2.length : ℤ) ≤
      ⌊(0 : ℚ) / send_interval⌋ + 2 :=
  C2_throttle DragState.init 1 200 200 0 [GuiEvent.move 1 200 200] le_rfl
    (by
      intro e he
      rw [List.mem_singleton] at he
      subst he
      exact ⟨⟨1, 200, 200, rfl⟩, by norm_num [GuiEvent.time],
        by norm_num [GuiEvent.time]⟩)

/-- C3 as stated is false on the code: pressing at time 1 on the freshly
initialised state emits immediately, but `last_send_time` remains 0 — the
emit timestamp 1 is NOT recorded as the new last-emit time. -/
theorem C3_counterexample :
    (on_left_press DragState.init 1 200 200).2 =
      [⟨1, true, update_dot_and_send 200 200⟩] ∧
    update_dot_and_send 200 200 = (0, 0) ∧
    (on_left_press DragState.init 1 200 200).1.last_send_time = 0 ∧
    (0 : ℚ) ≠ 1 := by
  refine ⟨rfl, ?_, rfl, by norm_num⟩
  rw [update_dot_inside (by norm_num)]
  norm_num

/-- C3 corrected: pointer-down enters Dragging and immediately emits the
mapped position — no timing condition is consulted, so the rate limiter is
bypassed — but it leaves the last-emit time used by subsequent move-event
throttling unchanged instead of recording the emit timestamp. -/
theorem C3_press_behavior :
    ∀ (s : DragState) (t x y : ℚ),
      (on_left_press s t x y).1.dragging = true ∧
      (on_left_press s t x y).1.last_send_time = s.last_send_time ∧
      (on_left_press s t x y).2 = [⟨t, true, update_dot_and_send x y⟩] :=
  fun _ _ _ _ => ⟨rfl, rfl, rfl⟩

end EyeMechCtl
